import Mathlib

/-!
Verification development for the parrotcore repository: a shallow embedding
of the voice-profile / job domain services, the audio utilities, the
speaking-voice enrollment sample selection, the synthesis-pipeline text
chunker and the remote GPU training client poll loop, together with
theorems settling the specification's claims about them.

Conventions of the embedding:
* Python `ValueError` raised by the domain services is the spec's
  InvalidInput error class; fallible operations are modelled with
  `Except String`.
* Django rows are records; `save(update_fields=[...])` is a record update
  touching exactly those fields; `transaction.atomic` means an operation
  that raises leaves the database unchanged, so state-returning models
  return their input state on the error path.
* Audio sample values are real numbers; file durations are rationals
  (exact values of the floats the code reads); machine floats carry no
  overflow here, so float arithmetic is modelled as exact arithmetic.
-/

namespace Parrotcore

/-! ## Domain model (src/backend/apps/voices/models.py, src/backend/apps/tts/models.py) -/

/-- `VoiceProfileStatus` choices (models.py lines 8-13). -/
inductive VoiceProfileStatus where
  | pending | enrolling | ready | failed
deriving DecidableEq, Repr

/-- `EnrollmentJobStatus` choices (models.py lines 16-21). -/
inductive EnrollmentJobStatus where
  | pending | queued | processing | completed | failed
deriving DecidableEq, Repr

/-- `SampleType` choices (models.py lines 24-27). -/
inductive SampleType where
  | speaking | singing
deriving DecidableEq, Repr

/-- Display name of a sample type, as interpolated into service messages. -/
def SampleType.text : SampleType → String
  | .speaking => "speaking"
  | .singing => "singing"

/-- `JobStatus` choices of the TTS app (apps/tts/models.py). -/
inductive JobStatus where
  | pending | queued | processing | completed | failed | cancelled
deriving DecidableEq, Repr

/-- One `VoiceSample` row (models.py lines 137-166); only the fields the
claims touch are carried. -/
structure VoiceSample where
  sample_type : SampleType
  file_path : String
  original_filename : String
  duration_seconds : ℚ
deriving DecidableEq, Repr

/-- One `VoiceProfile` row (models.py lines 30-97).  The `samples` related
set is carried inline, matching the `voice_profile.samples` manager the
services query. -/
structure VoiceProfile where
  name : String
  status : VoiceProfileStatus
  speaking_status : VoiceProfileStatus
  singing_status : VoiceProfileStatus
  embedding_path : String
  chatterbox_embedding_path : String
  rvc_model_path : String
  samples : List VoiceSample
deriving DecidableEq, Repr

/-- One `VoiceEnrollmentJob` row (models.py lines 178-222). -/
structure VoiceEnrollmentJob where
  job_type : SampleType
  status : EnrollmentJobStatus
  celery_task_id : String
  progress_percent : ℕ
  error_message : String
  completed_at : Option ℕ
deriving DecidableEq, Repr

/-- One `TTSJob` row (apps/tts/models.py). -/
structure TTSJob where
  input_text : String
  status : JobStatus
  celery_task_id : String
  progress_percent : ℕ
  error_message : String
  completed_at : Option ℕ
deriving DecidableEq, Repr

/-- One `CoverJob` row (apps/tts/models.py). -/
structure CoverJob where
  source_song_path : String
  original_filename : String
  pitch_shift : ℤ
  vocal_volume : ℚ
  instrumental_volume : ℚ
  status : JobStatus
  celery_task_id : String
  progress_percent : ℕ
  current_step : String
  error_message : String
  completed_at : Option ℕ
deriving DecidableEq, Repr

/-! ## Voice profile services (src/backend/apps/voices/services.py) -/

/-- `VoiceProfileService.create_voice_profile` (services.py lines 28-55):
all three statuses start PENDING.  `VoiceProfile.save` on a new row also
syncs the legacy `status` from `speaking_status` (models.py lines 87-97). -/
def create_voice_profile (name : String) : VoiceProfile :=
  { name := name
    status := VoiceProfileStatus.pending
    speaking_status := VoiceProfileStatus.pending
    singing_status := VoiceProfileStatus.pending
    embedding_path := ""
    chatterbox_embedding_path := ""
    rvc_model_path := ""
    samples := [] }

/-- `VoiceProfileService.add_sample` (services.py lines 57-98); inserts a
`VoiceSample` row with no validation. -/
def add_sample (p : VoiceProfile) (file_path original_filename : String)
    (duration_seconds : ℚ) (sample_type : SampleType) : VoiceProfile :=
  { p with samples :=
      p.samples ++ [{ sample_type := sample_type, file_path := file_path
                      original_filename := original_filename
                      duration_seconds := duration_seconds }] }

/-- Result of `enroll_voice_profile`: the profile row and enrollment-job
table after the transaction, plus the returned job or the raised
`ValueError` message.  A raised error rolls the transaction back, so the
error branches return the input state untouched. -/
structure EnrollOutcome where
  profile : VoiceProfile
  jobs : List VoiceEnrollmentJob
  result : Except String VoiceEnrollmentJob
deriving Repr

/-- `VoiceProfileService.enroll_voice_profile` (services.py lines 100-169):
rejects a profile with zero samples of the requested type, then rejects a
mode already ENROLLING; otherwise creates a PENDING job, flips the mode
status (and for SPEAKING the legacy status) to ENROLLING, queues the task
and flips the job to QUEUED. -/
def enroll_voice_profile (p : VoiceProfile) (jobs : List VoiceEnrollmentJob)
    (job_type : SampleType) (task_id : String) : EnrollOutcome :=
  let sample_count := (p.samples.filter (fun s => s.sample_type = job_type)).length
  if sample_count = 0 then
    ⟨p, jobs, .error ("Cannot enroll profile with no " ++ job_type.text ++ " samples")⟩
  else
    let current_status :=
      if job_type = SampleType.speaking then p.speaking_status else p.singing_status
    if current_status = VoiceProfileStatus.enrolling then
      ⟨p, jobs, .error ("Profile is already enrolling " ++ job_type.text ++ " voice")⟩
    else
      let p' :=
        if job_type = SampleType.speaking then
          { p with speaking_status := VoiceProfileStatus.enrolling
                   status := VoiceProfileStatus.enrolling }
        else
          { p with singing_status := VoiceProfileStatus.enrolling }
      let job : VoiceEnrollmentJob :=
        { job_type := job_type, status := EnrollmentJobStatus.queued
          celery_task_id := task_id, progress_percent := 0
          error_message := "", completed_at := none }
      ⟨p', jobs ++ [job], .ok job⟩

/-- `VoiceProfileService.mark_enrollment_complete` (services.py lines
171-210): completes the job and, on the owning profile, sets the
corresponding mode status READY and stores the artifact key (legacy fields
too for SPEAKING). -/
def mark_enrollment_complete (p : VoiceProfile) (job : VoiceEnrollmentJob)
    (model_path : String) (now : ℕ) : VoiceProfile × VoiceEnrollmentJob :=
  let job' := { job with status := EnrollmentJobStatus.completed
                         progress_percent := 100, completed_at := some now }
  let p' :=
    if job.job_type = SampleType.speaking then
      { p with speaking_status := VoiceProfileStatus.ready
               chatterbox_embedding_path := model_path
               embedding_path := model_path
               status := VoiceProfileStatus.ready }
    else
      { p with singing_status := VoiceProfileStatus.ready
               rvc_model_path := model_path }
  (p', job')

/-- `VoiceProfileService.mark_enrollment_failed` (services.py lines
212-245). -/
def mark_enrollment_failed (p : VoiceProfile) (job : VoiceEnrollmentJob)
    (error_message : String) (now : ℕ) : VoiceProfile × VoiceEnrollmentJob :=
  let job' := { job with status := EnrollmentJobStatus.failed
                         error_message := error_message, completed_at := some now }
  let p' :=
    if job.job_type = SampleType.speaking then
      { p with speaking_status := VoiceProfileStatus.failed
               status := VoiceProfileStatus.failed }
    else
      { p with singing_status := VoiceProfileStatus.failed }
  (p', job')

/-! ## TTS / cover job services (src/backend/apps/tts/services.py) -/

/-- `TTSJobService.create_tts_job` (services.py lines 26-69): the readiness
gate reads the profile's legacy unified `status` field (line 47), then
rejects blank text; on success the job is created PENDING, the task queued
and the job flipped to QUEUED. -/
def create_tts_job (voice_profile : VoiceProfile) (input_text : String)
    (task_id : String) : Except String TTSJob :=
  if voice_profile.status ≠ VoiceProfileStatus.ready then
    .error "Voice profile is not ready for synthesis"
  else if input_text.trim = "" then
    .error "Input text cannot be empty"
  else
    .ok { input_text := input_text.trim, status := JobStatus.queued
          celery_task_id := task_id, progress_percent := 0
          error_message := "", completed_at := none }

/-- `CoverJobService.create_cover_job` (services.py lines 120-175): the
readiness gate reads the profile's legacy unified `status` field (line
149), then bounds `pitch_shift` to [-12, 12]. -/
def create_cover_job (voice_profile : VoiceProfile)
    (source_song_path original_filename : String) (pitch_shift : ℤ)
    (vocal_volume instrumental_volume : ℚ) (task_id : String) :
    Except String CoverJob :=
  if voice_profile.status ≠ VoiceProfileStatus.ready then
    .error "Voice profile is not ready for synthesis"
  else if ¬ (-12 ≤ pitch_shift ∧ pitch_shift ≤ 12) then
    .error "Pitch shift must be between -12 and +12 semitones"
  else
    .ok { source_song_path := source_song_path
          original_filename := original_filename
          pitch_shift := pitch_shift, vocal_volume := vocal_volume
          instrumental_volume := instrumental_volume
          status := JobStatus.queued, celery_task_id := task_id
          progress_percent := 0, current_step := ""
          error_message := "", completed_at := none }

/-- `TTSJobService.mark_job_failed` (services.py lines 103-114): saves with
`update_fields=["status", "error_message", "completed_at"]`, so exactly
those three columns are written. -/
def TTSJob.mark_job_failed (job : TTSJob) (error_message : String)
    (now : ℕ) : TTSJob :=
  { job with status := JobStatus.failed, error_message := error_message
             completed_at := some now }

/-- `CoverJobService.mark_job_failed` (services.py lines 249-260): saves
with `update_fields=["status", "error_message", "completed_at"]`. -/
def CoverJob.mark_job_failed (job : CoverJob) (error_message : String)
    (now : ℕ) : CoverJob :=
  { job with status := JobStatus.failed, error_message := error_message
             completed_at := some now }

/-! ## Audio utilities (src/tts_engine/utils/audio.py) -/

/-- RMS of a waveform: `np.sqrt(np.mean(audio ** 2))` (audio.py line 99). -/
noncomputable def rms (audio : List ℝ) : ℝ :=
  Real.sqrt (((audio.map fun x => x ^ 2).sum) / (audio.length : ℝ))

/-- The gain computed by `normalize_audio` on its non-silent branch
(audio.py lines 103-105): `gain = 10 ** ((target_db - 20*log10(rms)) / 20)`. -/
noncomputable def audioGain (audio : List ℝ) (target_db : ℝ) : ℝ :=
  (10 : ℝ) ^ ((target_db - 20 * Real.logb 10 (rms audio)) / 20)

/-- `np.clip(x, -1.0, 1.0)` applied samplewise (audio.py line 109). -/
noncomputable def clip1 (x : ℝ) : ℝ := max (-1) (min 1 x)

/-- `normalize_audio` (audio.py lines 88-109): returns the input unchanged
when the RMS is below 1e-10, otherwise scales by the computed gain and
hard-clips every sample to [-1, 1]. -/
noncomputable def normalize_audio (audio : List ℝ) (target_db : ℝ := -20) : List ℝ :=
  if rms audio < 1e-10 then audio
  else audio.map fun x => clip1 (x * audioGain audio target_db)

/-- `concatenate_audio` (audio.py lines 149-176): empty list gives an empty
array; otherwise a silence buffer of `int(sample_rate * silence_ms / 1000)`
zero samples is inserted between consecutive clips (not after the last) and
everything is concatenated.  `int()` on the nonnegative float quotient is
floor division.  `interleaveSilence` is the `for i, audio in
enumerate(audio_list)` loop feeding `np.concatenate`. -/
noncomputable def interleaveSilence (silence : List ℝ) : List (List ℝ) → List ℝ
  | [] => []
  | [a] => a
  | a :: rest => a ++ silence ++ interleaveSilence silence rest

/-- `concatenate_audio` body (see doc comment above `interleaveSilence`). -/
noncomputable def concatenate_audio (audio_list : List (List ℝ))
    (sample_rate : ℕ) (silence_ms : ℕ := 500) : List ℝ :=
  match audio_list with
  | [] => []
  | _ :: _ =>
    interleaveSilence (List.replicate (sample_rate * silence_ms / 1000) 0) audio_list

/-- The categories of `validate_audio_file` messages (audio.py lines
191-205); each constructor is one of the formatted message strings. -/
inductive ValidationMessage where
  | fileNotFound (path : String)
  | couldNotRead
  | audioTooShort (duration min_duration : ℚ)
  | audioTooLong (duration max_duration : ℚ)
  | empty
deriving DecidableEq, Repr

/-- A filesystem as the audio validator observes it: whether a path exists,
and the duration `get_audio_duration` reads from it (`none` when decoding
raises). -/
structure AudioFS where
  pathExists : String → Bool
  durationOf : String → Option ℚ

/-- `validate_audio_file` (audio.py lines 179-205): not-found, then
decode-error, then `duration < min_duration`, then `duration >
max_duration`, else valid. -/
def validate_audio_file (fs : AudioFS) (path : String)
    (min_duration : ℚ := 1) (max_duration : ℚ := 30) :
    Bool × ValidationMessage :=
  if ¬ fs.pathExists path then
    (false, ValidationMessage.fileNotFound path)
  else
    match fs.durationOf path with
    | none => (false, ValidationMessage.couldNotRead)
    | some duration =>
      if duration < min_duration then
        (false, ValidationMessage.audioTooShort duration min_duration)
      else if duration > max_duration then
        (false, ValidationMessage.audioTooLong duration max_duration)
      else
        (true, ValidationMessage.empty)

/-! ## Speaking-voice enrollment reference selection
(src/tts_engine/models/chatterbox_wrapper.py lines 82-98 and
src/tts_engine/models/f5tts_wrapper.py lines 78-94) -/

/-- A candidate enrollment sample: its path and the duration
`get_audio_duration` returns for it. -/
structure EnrollSample where
  path : String
  duration : ℚ
deriving DecidableEq, Repr

/-- Whether a duration falls in the reference sweet-spot window
`5.0 <= duration <= 15.0`. -/
def inSweetSpot (d : ℚ) : Prop := 5 ≤ d ∧ d ≤ 15

instance (d : ℚ) : Decidable (inSweetSpot d) := by
  unfold inSweetSpot; infer_instance

/-- One iteration of the `for sample_path in samples` selection loop shared
by `ChatterboxWrapper.enroll` (lines 87-98) and `F5TTSWrapper.enroll`
(lines 84-94): the state is `(best_sample, best_duration)`. -/
def selectStep (st : Option EnrollSample × ℚ) (s : EnrollSample) :
    Option EnrollSample × ℚ :=
  let (best_sample, best_duration) := st
  if inSweetSpot s.duration then
    if best_sample = none ∨ s.duration > best_duration then (some s, s.duration)
    else st
  else if best_sample = none then (some s, s.duration)
  else st

/-- The reference sample `ChatterboxWrapper.enroll` settles on: the fold of
the selection loop from `best_sample = None`, `best_duration = 0.0`. -/
def chatterboxSelect (samples : List EnrollSample) : Option EnrollSample :=
  (samples.foldl selectStep (none, 0)).1

/-- The reference sample `F5TTSWrapper.enroll` settles on; the loop at
f5tts_wrapper.py lines 79-94 is textually the same fold. -/
def f5ttsSelect (samples : List EnrollSample) : Option EnrollSample :=
  (samples.foldl selectStep (none, 0)).1

/-- The artifact data `enroll` persists at `output_path` (chatterbox_wrapper.py
lines 105-111, f5tts_wrapper.py lines 108-115): the claims concern the
`source_file` entry, the path of the selected sample. -/
structure EmbeddingData where
  engine : String
  source_file : String
  total_samples : ℕ
deriving DecidableEq, Repr

/-- `ChatterboxWrapper.enroll` restricted to what it persists: fails on an
empty sample list, otherwise records the selected sample's path. -/
def chatterboxEnrollArtifact (samples : List EnrollSample) :
    Except String EmbeddingData :=
  match chatterboxSelect samples with
  | none => .error "No samples provided"
  | some best => .ok ⟨"chatterbox", best.path, samples.length⟩

/-- `F5TTSWrapper.enroll` restricted to what it persists. -/
def f5ttsEnrollArtifact (samples : List EnrollSample) :
    Except String EmbeddingData :=
  match f5ttsSelect samples with
  | none => .error "No samples provided"
  | some best => .ok ⟨"f5tts", best.path, samples.length⟩

/-! ## Synthesis pipeline text preprocessing and chunking
(src/tts_engine/pipeline/synthesis.py lines 34-68) -/

/-- Python `\s` whitespace (the ASCII part; only the plain space occurs in
preprocessed text). -/
def isWS (c : Char) : Bool :=
  c = ' ' || c = '\t' || c = '\n' || c = '\r' || c = '\x0b' || c = '\x0c'

/-- The sentence-ending characters of the chunker's split regex
`(?<=[.!?])\s+` (synthesis.py line 55). -/
def isSentEnd (c : Char) : Bool := c = '.' || c = '!' || c = '?'

/-- Whether the reversed accumulator's most recent character satisfies the
regex look-behind `(?<=[.!?])`. -/
def endsWithSentEnd : List Char → Bool
  | [] => false
  | c :: _ => isSentEnd c

/-- `re.split(r'(?<=[.!?])\s+', text)` as a left-to-right scan.  The state
is `some acc` while inside a segment (`acc` holds its characters reversed)
and `none` while consuming the greedy `\s+` of a match just taken. -/
def splitGo (st : Option (List Char)) : List Char → List (List Char)
  | [] =>
    match st with
    | none => [[]]
    | some acc => [acc.reverse]
  | c :: cs =>
    match st with
    | none => if isWS c then splitGo none cs else splitGo (some [c]) cs
    | some acc =>
      if isWS c && endsWithSentEnd acc then acc.reverse :: splitGo none cs
      else splitGo (some (c :: acc)) cs

/-- The `sentences` list of `chunk_text` (synthesis.py line 55). -/
def splitSentences (text : List Char) : List (List Char) := splitGo (some []) text

/-- Python `str.strip()`: drop whitespace from both ends. -/
def stripWS (t : List Char) : List Char :=
  ((t.dropWhile isWS).reverse.dropWhile isWS).reverse

/-- The greedy packing loop of `chunk_text` (synthesis.py lines 57-66):
state `current`, appending `f"{current} {sentence}".strip()` while the
pre-join lengths fit, else flushing a non-empty `current` as a chunk. -/
def packGo (maxLen : ℕ) (current : List Char) : List (List Char) → List (List Char)
  | [] => if current = [] then [] else [current]
  | s :: rest =>
    if current.length + s.length ≤ maxLen then
      packGo maxLen (stripWS (current ++ ' ' :: s)) rest
    else if current = [] then packGo maxLen s rest
    else current :: packGo maxLen s rest

/-- `SynthesisPipeline.chunk_text` (synthesis.py lines 41-68): text at or
below `max_text_length` is one chunk; longer text is split into sentences
and greedily packed. -/
def chunk_text (maxLen : ℕ) (text : List Char) : List (List Char) :=
  if text.length ≤ maxLen then [text] else packGo maxLen [] (splitSentences text)

/-- The word scan of Python `str.split()` (no separator: whitespace runs,
empty pieces dropped), used by `preprocess_text`. -/
def wordsGo (cw : List Char) : List Char → List (List Char)
  | [] => if cw = [] then [] else [cw.reverse]
  | c :: cs =>
    if isWS c then
      if cw = [] then wordsGo [] cs else cw.reverse :: wordsGo [] cs
    else wordsGo (c :: cw) cs

/-- Joining pieces with single spaces (`" ".join(...)`, and the claims'
"re-inserting single spaces between chunks"). -/
def joinSpace : List (List Char) → List Char
  | [] => []
  | [s] => s
  | s :: rest => s ++ ' ' :: joinSpace rest

/-- `SynthesisPipeline.preprocess_text` (synthesis.py lines 34-39):
`" ".join(text.split())` (the prior `strip()` is subsumed by `split()`,
which already ignores edge whitespace). -/
def preprocess_text (text : List Char) : List Char := joinSpace (wordsGo [] text)

/-! ## Remote GPU training client poll loop
(src/backend/apps/common/runpod_service.py lines 81-142) -/

/-- The adaptive polling interval chosen after completing poll number
`poll_count` (runpod_service.py lines 135-140): `poll_count < 10` gives 2
seconds, `poll_count < 30` gives 5 seconds, otherwise 10 seconds. -/
def waitTime (poll_count : ℕ) : ℕ :=
  if poll_count < 10 then 2 else if poll_count < 30 then 5 else 10

/-- The payload `run_request.output()` returns once the remote job is
terminal. -/
structure RunPodOutput where
  success : Bool
  error : String
deriving Repr

/-- How `train_rvc_model` can leave its poll loop. -/
inductive TrainResult where
  /-- COMPLETED with a payload whose own success flag is true. -/
  | ok
  /-- COMPLETED but the payload reports failure: `RuntimeError("Training failed: …")`. -/
  | trainingFailed (error : String)
  /-- Terminal FAILED status: `RuntimeError("RunPod job failed: …")`. -/
  | jobFailed (error : String)
  /-- Elapsed time exceeded the configured timeout: `TimeoutError`. -/
  | timeout
deriving DecidableEq, Repr

/-- The `while True` poll loop of `train_rvc_model` (runpod_service.py
lines 85-142).  `statusAt k` is the status string the k-th `status()` call
returns (k counts from 1, as `poll_count` does); time is modelled as the
sum of completed sleeps, the only suspensions of the loop.  Each iteration
increments `poll_count`, reads the status, returns on COMPLETED/FAILED,
raises `TimeoutError` when `elapsed > timeout`, and otherwise sleeps the
adaptive interval before the next poll. -/
def pollLoop (statusAt : ℕ → String) (output : RunPodOutput) (timeout : ℕ)
    (poll_count elapsed : ℕ) : TrainResult :=
  let pc := poll_count + 1
  let status := statusAt pc
  if status = "COMPLETED" then
    if output.success then .ok else .trainingFailed output.error
  else if status = "FAILED" then .jobFailed output.error
  else if timeout < elapsed then .timeout
  else pollLoop statusAt output timeout pc (elapsed + waitTime pc)
termination_by timeout + 1 - elapsed
decreasing_by
  have h2 : 2 ≤ waitTime (poll_count + 1) := by
    unfold waitTime; split <;> [skip; split] <;> norm_num
  omega

/-- `RunPodService.train_rvc_model`'s polling phase, entered with zero
polls completed and zero elapsed time. -/
def train_rvc_model_poll (statusAt : ℕ → String) (output : RunPodOutput)
    (timeout : ℕ) : TrainResult :=
  pollLoop statusAt output timeout 0 0

/-! ## Theorems -/

/-- A profile driven through the modelled service flow to a state with a
trained singing voice only: created, one singing sample added, singing
enrollment queued and completed.  Reachable per §3's lifecycle. -/
def singingReadyProfile : VoiceProfile :=
  let p1 := add_sample (create_voice_profile "demo")
    "samples/u/p/singing/a.wav" "a.wav" 8 SampleType.singing
  let o := enroll_voice_profile p1 [] SampleType.singing "task-1"
  match o.result with
  | .ok job => (mark_enrollment_complete o.profile job "models/u/p/rvc_model.pth" 0).1
  | .error _ => o.profile

/-- The symmetric profile with a ready speaking voice only. -/
def speakingReadyProfile : VoiceProfile :=
  let p1 := add_sample (create_voice_profile "demo")
    "samples/u/p/speaking/a.wav" "a.wav" 8 SampleType.speaking
  let o := enroll_voice_profile p1 [] SampleType.speaking "task-1"
  match o.result with
  | .ok job => (mark_enrollment_complete o.profile job "embeddings/u/p/chatterbox.pt" 0).1
  | .error _ => o.profile

/-- C1: the claim fails on the code.  `create_cover_job` gates on the
legacy unified `status` field (services.py line 149), which the voice
profile services keep in sync with `speaking_status` and never with
`singing_status`; so a reachable profile whose singing voice is READY but
whose speaking voice is still PENDING is rejected with InvalidInput, and
the symmetric profile with only the speaking voice READY is accepted, even
though its singing voice was never trained. -/
theorem create_cover_job_ignores_singing_status :
    singingReadyProfile.singing_status = VoiceProfileStatus.ready ∧
    singingReadyProfile.speaking_status = VoiceProfileStatus.pending ∧
    create_cover_job singingReadyProfile "songs/u/song.wav" "song.wav" 0 1 1 "task-2"
      = .error "Voice profile is not ready for synthesis" ∧
    speakingReadyProfile.speaking_status = VoiceProfileStatus.ready ∧
    speakingReadyProfile.singing_status = VoiceProfileStatus.pending ∧
    (create_cover_job speakingReadyProfile "songs/u/song.wav" "song.wav" 0 1 1 "task-2").isOk
      = true := by
  refine ⟨rfl, rfl, rfl, rfl, rfl, rfl⟩

/-- C6: `enroll_voice_profile` rejects (InvalidInput, modelled as
`Except.error`) a profile with zero samples of the requested type — with a
message naming the type — and rejects a mode already ENROLLING; in both
failure cases the profile row and the enrollment-job table are returned
unchanged and no job is handed back. -/
theorem enroll_voice_profile_guards (p : VoiceProfile)
    (jobs : List VoiceEnrollmentJob) (jt : SampleType) (task : String) :
    ((p.samples.filter (fun s => s.sample_type = jt)).length = 0 →
      enroll_voice_profile p jobs jt task =
        ⟨p, jobs, .error ("Cannot enroll profile with no " ++ jt.text ++ " samples")⟩) ∧
    ((if jt = SampleType.speaking then p.speaking_status else p.singing_status) =
        VoiceProfileStatus.enrolling →
      (enroll_voice_profile p jobs jt task).profile = p ∧
      (enroll_voice_profile p jobs jt task).jobs = jobs ∧
      ∃ e, (enroll_voice_profile p jobs jt task).result = .error e) := by
  constructor
  · intro h
    simp [enroll_voice_profile, h]
  · intro h
    by_cases hc : (p.samples.filter (fun s => s.sample_type = jt)).length = 0
    · simp only [enroll_voice_profile, if_pos hc]
      exact ⟨trivial, trivial, _, rfl⟩
    · simp only [enroll_voice_profile, if_neg hc, if_pos h]
      exact ⟨trivial, trivial, _, rfl⟩

/-- Witness profile for C6: no samples at all. -/
def noSamplesProfile : VoiceProfile := create_voice_profile "w"

/-- Witness profile for C6: speaking mode already ENROLLING, with a
speaking sample present. -/
def enrollingProfile : VoiceProfile :=
  { add_sample (create_voice_profile "w") "samples/u/w/s.wav" "s.wav" 6
      SampleType.speaking with
    speaking_status := VoiceProfileStatus.enrolling }

/-- Witness for C6 at concrete inputs: both guard branches fire. -/
theorem enroll_voice_profile_guards_witness :
    ((noSamplesProfile.samples.filter
        (fun s => s.sample_type = SampleType.singing)).length = 0 ∧
      enroll_voice_profile noSamplesProfile [] SampleType.singing "t" =
        ⟨noSamplesProfile, [], .error "Cannot enroll profile with no singing samples"⟩) ∧
    ((if SampleType.speaking = SampleType.speaking then
        enrollingProfile.speaking_status else enrollingProfile.singing_status) =
        VoiceProfileStatus.enrolling ∧
      (enroll_voice_profile enrollingProfile [] SampleType.speaking "t").profile =
        enrollingProfile ∧
      (enroll_voice_profile enrollingProfile [] SampleType.speaking "t").jobs = [] ∧
      ∃ e, (enroll_voice_profile enrollingProfile [] SampleType.speaking "t").result =
        .error e) :=
  ⟨⟨by decide,
    (enroll_voice_profile_guards noSamplesProfile [] SampleType.singing "t").1 (by decide)⟩,
   ⟨by decide,
    (enroll_voice_profile_guards enrollingProfile [] SampleType.speaking "t").2 (by decide)⟩⟩

/-- C7: case analysis of `validate_audio_file`: missing path, undecodable
duration, strictly-too-short, strictly-too-long, and the accepting case —
so durations exactly at either bound are accepted. -/
theorem validate_audio_file_cases (fs : AudioFS) (path : String) (minD maxD : ℚ) :
    (fs.pathExists path = false →
      validate_audio_file fs path minD maxD =
        (false, ValidationMessage.fileNotFound path)) ∧
    (fs.pathExists path = true → fs.durationOf path = none →
      validate_audio_file fs path minD maxD = (false, ValidationMessage.couldNotRead)) ∧
    (∀ d, fs.pathExists path = true → fs.durationOf path = some d →
      ((d < minD → validate_audio_file fs path minD maxD =
          (false, ValidationMessage.audioTooShort d minD)) ∧
       (minD ≤ d → maxD < d → validate_audio_file fs path minD maxD =
          (false, ValidationMessage.audioTooLong d maxD)) ∧
       (minD ≤ d → d ≤ maxD → validate_audio_file fs path minD maxD =
          (true, ValidationMessage.empty)))) := by
  refine ⟨fun h => ?_, fun h hd => ?_, fun d h hd => ⟨fun hlt => ?_, fun hge hgt => ?_, fun hge hle => ?_⟩⟩
  · simp [validate_audio_file, h]
  · simp [validate_audio_file, h, hd]
  · simp [validate_audio_file, h, hd, hlt]
  · simp [validate_audio_file, h, hd, not_lt.mpr hge, hgt]
  · simp [validate_audio_file, h, hd, not_lt.mpr hge, not_lt.mpr hle]

/-- Witness filesystem for C7, holding the spec's boundary clips. -/
def demoFS : AudioFS where
  pathExists p := p != "missing.wav"
  durationOf p :=
    if p = "short.wav" then some (9/10)
    else if p = "atmin.wav" then some 1
    else if p = "atmax.wav" then some 30
    else if p = "long.wav" then some (301/10)
    else none

/-- Witness for C7 at the spec's concrete boundary inputs: 0.9 s and
30.1 s clips fail, 1.0 s and 30.0 s clips pass, a missing path fails. -/
theorem validate_audio_file_cases_witness :
    validate_audio_file demoFS "missing.wav" 1 30 =
      (false, ValidationMessage.fileNotFound "missing.wav") ∧
    validate_audio_file demoFS "short.wav" 1 30 =
      (false, ValidationMessage.audioTooShort (9/10) 1) ∧
    validate_audio_file demoFS "atmin.wav" 1 30 = (true, ValidationMessage.empty) ∧
    validate_audio_file demoFS "atmax.wav" 1 30 = (true, ValidationMessage.empty) ∧
    validate_audio_file demoFS "long.wav" 1 30 =
      (false, ValidationMessage.audioTooLong (301/10) 30) :=
  ⟨(validate_audio_file_cases demoFS "missing.wav" 1 30).1 (by decide),
   ((validate_audio_file_cases demoFS "short.wav" 1 30).2.2 (9/10) (by decide)
      rfl).1 (by norm_num),
   ((validate_audio_file_cases demoFS "atmin.wav" 1 30).2.2 1 (by decide)
      rfl).2.2 (by norm_num) (by norm_num),
   ((validate_audio_file_cases demoFS "atmax.wav" 1 30).2.2 30 (by decide)
      rfl).2.2 (by norm_num) (by norm_num),
   ((validate_audio_file_cases demoFS "long.wav" 1 30).2.2 (301/10) (by decide)
      rfl).2.1 (by norm_num) (by norm_num)⟩

/-- Length of the interleaving loop: clip lengths plus one silence gap per
join. -/
theorem interleaveSilence_length (silence : List ℝ) (l : List (List ℝ)) :
    (interleaveSilence silence l).length =
      (l.map List.length).sum + (l.length - 1) * silence.length := by
  induction l with
  | nil => simp [interleaveSilence]
  | cons a rest ih =>
    cases rest with
    | nil => simp [interleaveSilence]
    | cons b rest' =>
      simp only [interleaveSilence, List.length_append, List.map_cons,
        List.sum_cons, List.length_cons, Nat.add_sub_cancel] at ih ⊢
      rw [ih]
      ring

/-- C10 is stated over both job kinds; C8's amended length law. -/
theorem concatenate_audio_length (audio_list : List (List ℝ)) (sr ms : ℕ) :
    concatenate_audio ([] : List (List ℝ)) sr ms = [] ∧
    (concatenate_audio audio_list sr ms).length =
      (audio_list.map List.length).sum +
        (audio_list.length - 1) * (sr * ms / 1000) := by
  refine ⟨rfl, ?_⟩
  cases audio_list with
  | nil => simp [concatenate_audio]
  | cons a rest =>
    simpa [concatenate_audio] using
      interleaveSilence_length (List.replicate (sr * ms / 1000) 0) (a :: rest)

/-- C8 counterexample: at sample rate 3 the inserted gap is
`int(3 * 500 / 1000) = 1` sample, not `round(1.5) = 2`, so the claimed
length law fails for `[[0], [0]]`. -/
theorem concatenate_audio_round_counterexample :
    (concatenate_audio [[(0 : ℝ)], [0]] 3 500).length ≠
      [(0 : ℝ)].length + [(0 : ℝ)].length +
        (round ((3 : ℚ) * 500 / 1000)).toNat := by
  have h1 : (concatenate_audio [[(0 : ℝ)], [0]] 3 500).length = 3 := by
    simp [concatenate_audio, interleaveSilence]
  have h2 : round ((3 : ℚ) * 500 / 1000) = 2 := by
    norm_num [round_eq]
  rw [h1, h2]
  decide

/-- A non-empty character list whose first and last characters are not
whitespace — the shape of sentences split out of preprocessed text. -/
def noEdgeWS (s : List Char) : Prop :=
  s ≠ [] ∧ (∀ c ∈ s.head?, isWS c = false) ∧ (∀ c ∈ s.getLast?, isWS c = false)

/-- Sentence-ending punctuation is not whitespace. -/
theorem sentEnd_not_ws {c : Char} (h : isSentEnd c = true) : isWS c = false := by
  simp only [isSentEnd, Bool.or_eq_true, decide_eq_true_eq] at h
  rcases h with (h | h) | h <;> subst h <;> rfl

/-- Dropping trailing whitespace is the identity on `noEdgeWS` lists. -/
theorem stripRev_of_noEdge (s : List Char) (h : noEdgeWS s) :
    (s.reverse.dropWhile isWS).reverse = s := by
  obtain ⟨hne, -, hl⟩ := h
  cases hrev : s.reverse with
  | nil => simp only [List.reverse_eq_nil_iff] at hrev; exact absurd hrev hne
  | cons b t =>
    have hb : isWS b = false := hl b (by rw [← List.head?_reverse, hrev]; rfl)
    rw [List.dropWhile_cons_of_neg (by simp [hb]), ← hrev, List.reverse_reverse]

/-- `str.strip()` is the identity on `noEdgeWS` lists. -/
theorem stripWS_of_noEdge (s : List Char) (h : noEdgeWS s) : stripWS s = s := by
  obtain ⟨hne, hh, hl⟩ := h
  cases s with
  | nil => exact absurd rfl hne
  | cons a t =>
    have ha : isWS a = false := hh a rfl
    unfold stripWS
    rw [List.dropWhile_cons_of_neg (by simp [ha])]
    exact stripRev_of_noEdge _ ⟨hne, hh, hl⟩

/-- `f"{''} {s}".strip()` gives back `s` when `s` has no edge whitespace. -/
theorem stripWS_space_cons (s : List Char) (h : noEdgeWS s) :
    stripWS (' ' :: s) = s := by
  obtain ⟨hne, hh, hl⟩ := h
  unfold stripWS
  rw [List.dropWhile_cons_of_pos (by rfl)]
  cases s with
  | nil => exact absurd rfl hne
  | cons a t =>
    have ha : isWS a = false := hh a rfl
    rw [List.dropWhile_cons_of_neg (by simp [ha])]
    exact stripRev_of_noEdge _ ⟨hne, hh, hl⟩

/-- Joining two `noEdgeWS` pieces with a single interior space keeps the
edges whitespace-free. -/
theorem noEdgeWS_append (c s : List Char) (hc : noEdgeWS c) (hs : noEdgeWS s) :
    noEdgeWS (c ++ ' ' :: s) := by
  obtain ⟨hcne, hch, -⟩ := hc
  obtain ⟨hsne, -, hsl⟩ := hs
  refine ⟨by simp [hcne], ?_, ?_⟩
  · intro x hx
    cases c with
    | nil => exact absurd rfl hcne
    | cons a t =>
      simp only [List.cons_append, List.head?_cons, Option.mem_def,
        Option.some.injEq] at hx
      exact hx ▸ hch a rfl
  · intro x hx
    rw [List.getLast?_append_of_ne_nil _ (by simp : (' ' :: s) ≠ [])] at hx
    cases s with
    | nil => exact absurd rfl hsne
    | cons b u =>
      rw [List.getLast?_cons_cons] at hx
      exact hsl x hx

/-- Every segment the sentence-splitting scan emits has no edge
whitespace, provided the text has none, its last character is not
whitespace, and the scan state is consistent with the text consumed so
far. -/
theorem splitGo_noEdge (rest : List Char) : ∀ st : Option (List Char),
    (st = some [] → ∀ c ∈ rest.head?, isWS c = false) →
    (∀ acc, st = some acc → ∀ c ∈ acc.getLast?, isWS c = false) →
    (∀ c ∈ rest.getLast?, isWS c = false) →
    (rest = [] → ∀ acc, st = some acc → acc ≠ [] ∧ ∀ c ∈ acc.head?, isWS c = false) →
    (rest = [] → st ≠ none) →
    ∀ s ∈ splitGo st rest, noEdgeWS s := by
  induction rest with
  | nil =>
    intro st h1 h2 h3 h4a h4b s hs
    cases st with
    | none => exact absurd rfl (h4b rfl)
    | some acc =>
      simp only [splitGo, List.mem_singleton] at hs
      subst hs
      obtain ⟨hne, hhd⟩ := h4a rfl acc rfl
      refine ⟨by simpa using hne, ?_, ?_⟩
      · intro c hc; rw [List.head?_reverse] at hc; exact h2 acc rfl c hc
      · intro c hc; rw [List.getLast?_reverse] at hc; exact hhd c hc
  | cons c cs ih =>
    intro st h1 h2 h3 h4a h4b s hs
    have h3' : ∀ x ∈ cs.getLast?, isWS x = false := by
      intro x hx
      cases cs with
      | nil => simp at hx
      | cons b u => exact h3 x (by rw [List.getLast?_cons_cons]; exact hx)
    have hlastc : cs = [] → isWS c = false := by
      intro h0; subst h0; exact h3 c rfl
    cases st with
    | none =>
      by_cases hws : isWS c = true
      · rw [splitGo, if_pos hws] at hs
        have hcs_ne : cs ≠ [] := by
          intro h0
          rw [hlastc h0] at hws
          exact Bool.false_ne_true hws
        exact ih none (by simp) (by simp) h3'
          (fun h0 => absurd h0 hcs_ne) (fun h0 => absurd h0 hcs_ne) s hs
      · rw [splitGo, if_neg hws] at hs
        have hc0 : isWS c = false := by
          cases hc : isWS c with
          | false => rfl
          | true => exact absurd hc hws
        refine ih (some [c]) (by simp) ?_ h3' ?_ (by simp) s hs
        · intro acc hacc x hx
          cases hacc
          simp only [List.getLast?_singleton, Option.mem_def,
            Option.some.injEq] at hx
          exact hx ▸ hc0
        · intro h0 acc hacc
          cases hacc
          exact ⟨by simp, fun x hx => by
            simp only [List.head?_cons, Option.mem_def, Option.some.injEq] at hx
            exact hx ▸ hc0⟩
    | some acc =>
      by_cases hsplit : (isWS c && endsWithSentEnd acc) = true
      · rw [splitGo, if_pos hsplit] at hs
        obtain ⟨hws, hpunct⟩ := Bool.and_eq_true_iff.mp hsplit
        have hacc_ne : acc ≠ [] := by
          intro h0; subst h0; simp [endsWithSentEnd] at hpunct
        rcases List.mem_cons.mp hs with hs | hs
        · subst hs
          refine ⟨by simpa using hacc_ne, ?_, ?_⟩
          · intro x hx; rw [List.head?_reverse] at hx; exact h2 acc rfl x hx
          · intro x hx
            rw [List.getLast?_reverse] at hx
            cases acc with
            | nil => exact absurd rfl hacc_ne
            | cons a t =>
              simp only [List.head?_cons, Option.mem_def, Option.some.injEq] at hx
              subst hx
              exact sentEnd_not_ws (by simpa [endsWithSentEnd] using hpunct)
        · have hcs_ne : cs ≠ [] := by
            intro h0
            rw [hlastc h0] at hws
            exact Bool.false_ne_true hws
          exact ih none (by simp) (by simp) h3'
            (fun h0 => absurd h0 hcs_ne) (fun h0 => absurd h0 hcs_ne) s hs
      · rw [splitGo, if_neg hsplit] at hs
        refine ih (some (c :: acc)) (by simp) ?_ h3' ?_ (by simp) s hs
        · intro acc0 hacc0 x hx
          cases hacc0
          cases acc with
          | nil =>
            simp only [List.getLast?_singleton, Option.mem_def,
              Option.some.injEq] at hx
            exact hx ▸ h1 rfl c rfl
          | cons b u =>
            rw [List.getLast?_cons_cons] at hx
            exact h2 (b :: u) rfl x hx
        · intro h0 acc0 hacc0
          cases hacc0
          exact ⟨by simp, fun x hx => by
            simp only [List.head?_cons, Option.mem_def, Option.some.injEq] at hx
            exact hx ▸ hlastc h0⟩

/-- Sentences split out of a text with whitespace-free edges have
whitespace-free edges themselves. -/
theorem splitSentences_noEdge (t : List Char) (hne : t ≠ [])
    (hh : ∀ c ∈ t.head?, isWS c = false) (hl : ∀ c ∈ t.getLast?, isWS c = false) :
    ∀ s ∈ splitSentences t, noEdgeWS s := by
  refine splitGo_noEdge t (some []) (fun _ => hh) ?_ hl ?_ (by simp)
  · intro acc hacc x hx
    cases hacc
    simp at hx
  · intro h0
    exact absurd h0 hne

/-- Every piece `str.split()` produces is a non-empty, whitespace-free
word. -/
theorem wordsGo_words (rest : List Char) : ∀ cw : List Char,
    (∀ c ∈ cw, isWS c = false) →
    ∀ w ∈ wordsGo cw rest, w ≠ [] ∧ ∀ c ∈ w, isWS c = false := by
  induction rest with
  | nil =>
    intro cw hcw w hw
    by_cases h0 : cw = []
    · subst h0; simp [wordsGo] at hw
    · rw [wordsGo, if_neg h0] at hw
      simp only [List.mem_singleton] at hw
      subst hw
      exact ⟨by simpa using h0, fun c hc => hcw c (List.mem_reverse.mp hc)⟩
  | cons c cs ih =>
    intro cw hcw w hw
    by_cases hws : isWS c = true
    · rw [wordsGo, if_pos hws] at hw
      by_cases h0 : cw = []
      · rw [if_pos h0] at hw
        exact ih [] (by simp) w hw
      · rw [if_neg h0] at hw
        rcases List.mem_cons.mp hw with hw | hw
        · subst hw
          exact ⟨by simpa using h0, fun x hx => hcw x (List.mem_reverse.mp hx)⟩
        · exact ih [] (by simp) w hw
    · rw [wordsGo, if_neg hws] at hw
      refine ih (c :: cw) ?_ w hw
      intro x hx
      rcases List.mem_cons.mp hx with hx | hx
      · subst hx
        cases h : isWS x with
        | false => rfl
        | true => exact absurd h hws
      · exact hcw x hx

/-- `joinSpace` of a list led by a non-empty piece is non-empty. -/
theorem joinSpace_ne_nil (w : List Char) (l : List (List Char)) (hw : w ≠ []) :
    joinSpace (w :: l) ≠ [] := by
  cases l with
  | nil => simpa [joinSpace] using hw
  | cons w' l' => simp [joinSpace]

/-- Joining non-empty whitespace-free words with single spaces yields text
whose first and last characters are not whitespace. -/
theorem joinSpace_edges (ws : List (List Char))
    (h : ∀ w ∈ ws, w ≠ [] ∧ ∀ c ∈ w, isWS c = false) :
    (∀ c ∈ (joinSpace ws).head?, isWS c = false) ∧
    (∀ c ∈ (joinSpace ws).getLast?, isWS c = false) := by
  induction ws with
  | nil => simp [joinSpace]
  | cons w l ih =>
    have hw := h w (List.mem_cons_self w l)
    cases l with
    | nil =>
      constructor
      · intro c hc
        exact hw.2 c (List.mem_of_mem_head? (by simpa [joinSpace] using hc))
      · intro c hc
        exact hw.2 c (List.mem_of_mem_getLast? (by simpa [joinSpace] using hc))
    | cons w' l' =>
      have ih' := ih (fun x hx => h x (List.mem_cons_of_mem w hx))
      have hjoin : joinSpace (w :: w' :: l') = w ++ ' ' :: joinSpace (w' :: l') := rfl
      constructor
      · intro c hc
        rw [hjoin] at hc
        cases w with
        | nil => exact absurd rfl hw.1
        | cons a t =>
          simp only [List.cons_append, List.head?_cons, Option.mem_def,
            Option.some.injEq] at hc
          exact hc ▸ hw.2 a (List.mem_cons_self a t)
      · intro c hc
        rw [hjoin,
          List.getLast?_append_of_ne_nil _ (by simp : (' ' :: joinSpace (w' :: l')) ≠ [])]
          at hc
        have hne : joinSpace (w' :: l') ≠ [] :=
          joinSpace_ne_nil w' l' (h w' (by simp)).1
        cases hj : joinSpace (w' :: l') with
        | nil => exact absurd hj hne
        | cons b u =>
          rw [hj, List.getLast?_cons_cons] at hc
          exact ih'.2 c (by rw [hj]; exact hc)

/-- Invariant proof for the greedy packing loop: the sentence sequence
(joined with single spaces) is preserved, and every produced chunk is
either one of the ambient sentences `S` or of length at most
`maxLen + 1` (the interior join space is not counted by the guard). -/
theorem packGo_spec (maxLen : ℕ) (S : List (List Char)) :
    ∀ (sents : List (List Char)) (current : List Char),
      (∀ s ∈ sents, s ∈ S) →
      (∀ s ∈ sents, noEdgeWS s) →
      (current = [] ∨ (noEdgeWS current ∧ (current ∈ S ∨ current.length ≤ maxLen + 1))) →
      joinSpace (packGo maxLen current sents) =
        (if current = [] then joinSpace sents else joinSpace (current :: sents)) ∧
      (∀ c ∈ packGo maxLen current sents, c ∈ S ∨ c.length ≤ maxLen + 1) ∧
      (current ≠ [] → packGo maxLen current sents ≠ []) := by
  intro sents
  induction sents with
  | nil =>
    intro current hsub hedge hcur
    by_cases h0 : current = []
    · subst h0
      exact ⟨by simp [packGo, joinSpace], by simp [packGo], fun h => absurd rfl h⟩
    · rw [packGo, if_neg h0]
      refine ⟨by rw [if_neg h0], ?_, fun _ => by simp⟩
      intro c hc
      simp only [List.mem_singleton] at hc
      subst hc
      exact (hcur.resolve_left h0).2
  | cons s rest ih =>
    intro current hsub hedge hcur
    have hs_mem : s ∈ S := hsub s (List.mem_cons_self s rest)
    have hs_edge : noEdgeWS s := hedge s (List.mem_cons_self s rest)
    have hs_ne : s ≠ [] := hs_edge.1
    have hsub' : ∀ x ∈ rest, x ∈ S := fun x hx => hsub x (List.mem_cons_of_mem s hx)
    have hedge' : ∀ x ∈ rest, noEdgeWS x := fun x hx => hedge x (List.mem_cons_of_mem s hx)
    by_cases hfit : current.length + s.length ≤ maxLen
    · rw [packGo, if_pos hfit]
      by_cases h0 : current = []
      · subst h0
        have hstrip : stripWS ([] ++ ' ' :: s) = s := by
          simpa using stripWS_space_cons s hs_edge
        rw [hstrip]
        obtain ⟨ihj, ihm, ihn⟩ := ih s hsub' hedge' (Or.inr ⟨hs_edge, Or.inl hs_mem⟩)
        refine ⟨?_, ihm, fun h => absurd rfl h⟩
        rw [ihj, if_neg hs_ne, if_pos rfl]
      · have hcur' := hcur.resolve_left h0
        have happ_edge : noEdgeWS (current ++ ' ' :: s) :=
          noEdgeWS_append current s hcur'.1 hs_edge
        have happ : stripWS (current ++ ' ' :: s) = current ++ ' ' :: s :=
          stripWS_of_noEdge _ happ_edge
        rw [happ]
        have hlen : (current ++ ' ' :: s).length ≤ maxLen + 1 := by
          simp only [List.length_append, List.length_cons]
          omega
        obtain ⟨ihj, ihm, ihn⟩ := ih (current ++ ' ' :: s) hsub' hedge'
          (Or.inr ⟨happ_edge, Or.inr hlen⟩)
        refine ⟨?_, ihm, fun _ => ihn happ_edge.1⟩
        rw [ihj, if_neg happ_edge.1, if_neg h0]
        cases rest with
        | nil => simp [joinSpace]
        | cons r rs => simp [joinSpace, List.append_assoc]
    · rw [packGo, if_neg hfit]
      obtain ⟨ihj, ihm, ihn⟩ := ih s hsub' hedge' (Or.inr ⟨hs_edge, Or.inl hs_mem⟩)
      by_cases h0 : current = []
      · rw [if_pos h0]
        subst h0
        refine ⟨?_, ihm, fun h => absurd rfl h⟩
        rw [ihj, if_neg hs_ne, if_pos rfl]
      · rw [if_neg h0]
        have hpne : packGo maxLen s rest ≠ [] := ihn hs_ne
        have hj : ∀ (a : List Char) (L : List (List Char)), L ≠ [] →
            joinSpace (a :: L) = a ++ ' ' :: joinSpace L := by
          intro a L hL
          cases L with
          | nil => exact absurd rfl hL
          | cons x xs => rfl
        refine ⟨?_, ?_, fun _ => by simp⟩
        · rw [hj current _ hpne, ihj, if_neg hs_ne, if_neg h0]
          rfl
        · intro c hc
          rcases List.mem_cons.mp hc with hc | hc
          · subst hc
            exact (hcur.resolve_left h0).2
          · exact ihm c hc

/-- C3 (amended): on preprocessed text, `chunk_text` keeps text at or
below the maximum as a single chunk; longer text is split into sentences
and packed so that joining the chunks with single spaces reproduces the
sentence sequence in order, and every chunk is either a single sentence
(which alone may exceed the maximum) or of length at most `maxLen + 1`
(the guard ignores the join space it inserts). -/
theorem chunk_text_spec (maxLen : ℕ) (t : List Char)
    (hp : t = preprocess_text t) :
    (t.length ≤ maxLen → chunk_text maxLen t = [t]) ∧
    (maxLen < t.length →
      joinSpace (chunk_text maxLen t) = joinSpace (splitSentences t) ∧
      ∀ c ∈ chunk_text maxLen t, c ∈ splitSentences t ∨ c.length ≤ maxLen + 1) := by
  constructor
  · intro h
    rw [chunk_text, if_pos h]
  · intro h
    have hne : t ≠ [] := by
      intro h0
      rw [h0] at h
      simp at h
    have hwords := wordsGo_words t [] (by simp)
    have hedges := joinSpace_edges (wordsGo [] t) hwords
    have hh : ∀ c ∈ t.head?, isWS c = false := by
      rw [hp]; exact hedges.1
    have hl : ∀ c ∈ t.getLast?, isWS c = false := by
      rw [hp]; exact hedges.2
    have hsent := splitSentences_noEdge t hne hh hl
    obtain ⟨hj, hm, -⟩ := packGo_spec maxLen (splitSentences t) (splitSentences t) []
      (fun _ hx => hx) hsent (Or.inl rfl)
    rw [chunk_text, if_neg (by omega)]
    exact ⟨by simpa using hj, hm⟩

/-- Witness text for C3: `"ab. cd"` with a 3-character maximum. -/
def chunkDemoText : List Char := ['a', 'b', '.', ' ', 'c', 'd']

/-- Witness for C3 at a concrete preprocessed text: two sentences are
packed into two chunks whose space-join restores the sentence sequence. -/
theorem chunk_text_spec_witness :
    chunkDemoText = preprocess_text chunkDemoText ∧
    3 < chunkDemoText.length ∧
    joinSpace (chunk_text 3 chunkDemoText) = joinSpace (splitSentences chunkDemoText) ∧
    ∀ c ∈ chunk_text 3 chunkDemoText,
      c ∈ splitSentences chunkDemoText ∨ c.length ≤ 3 + 1 :=
  ⟨by decide, by decide,
   ((chunk_text_spec 3 chunkDemoText (by decide)).2 (by decide)).1,
   ((chunk_text_spec 3 chunkDemoText (by decide)).2 (by decide)).2⟩

/-- A preprocessed 501-character text: a 250-character sentence followed by
a 250-character one. -/
def chunkOversizeText : List Char :=
  List.replicate 249 'a' ++ '.' :: ' ' :: List.replicate 250 'a'

set_option maxRecDepth 10000

/-- C3 counterexample: with the default 500-character maximum, the packing
guard accepts the second sentence (`250 + 250 ≤ 500`) but the join adds a
space, so the single produced chunk has 501 > 500 characters, refuting
"every chunk has length at most the maximum". -/
theorem chunk_text_counterexample :
    500 < chunkOversizeText.length ∧
    chunkOversizeText = preprocess_text chunkOversizeText ∧
    chunk_text 500 chunkOversizeText = [chunkOversizeText] ∧
    ∀ c ∈ chunk_text 500 chunkOversizeText, 500 < c.length := by
  refine ⟨by decide, by decide, by decide, by decide⟩

/-- The earliest running maximum by duration: the seed is replaced only by
a strictly longer candidate. -/
def bestOf (b : EnrollSample) : List EnrollSample → EnrollSample
  | [] => b
  | s :: rest => bestOf (if s.duration > b.duration then s else b) rest

/-- The selection fold, started after the first sample has seeded the
state, computes the earliest running maximum over the first sample and the
later in-window samples. -/
theorem selectFold_eq (rest : List EnrollSample) : ∀ b : EnrollSample,
    rest.foldl selectStep (some b, b.duration) =
      (some (bestOf b (rest.filter fun s => decide (inSweetSpot s.duration))),
       (bestOf b (rest.filter fun s => decide (inSweetSpot s.duration))).duration) := by
  induction rest with
  | nil => intro b; simp [bestOf]
  | cons s rest ih =>
    intro b
    by_cases hin : inSweetSpot s.duration
    · by_cases hgt : s.duration > b.duration
      · simpa [selectStep, hin, hgt, List.filter_cons, bestOf] using ih s
      · simpa [selectStep, hin, hgt, List.filter_cons, bestOf] using ih b
    · simpa [selectStep, hin, List.filter_cons] using ih b

/-- C2 (amended): for a non-empty sample list, both backends persist as
reference the earliest maximum-duration element of the sequence made of
the *first sample followed by the later in-window samples*.  In particular
the longest in-window sample wins whenever the first sample is itself
in-window or shorter than that sample, and the first sample wins when no
sample is in-window — but an out-of-window first sample that is at least
as long as every in-window sample is kept despite the window. -/
theorem enroll_reference_selection (s0 : EnrollSample) (rest : List EnrollSample) :
    chatterboxSelect (s0 :: rest) =
      some (bestOf s0 (rest.filter fun s => decide (inSweetSpot s.duration))) ∧
    f5ttsSelect (s0 :: rest) =
      some (bestOf s0 (rest.filter fun s => decide (inSweetSpot s.duration))) ∧
    chatterboxEnrollArtifact (s0 :: rest) =
      .ok ⟨"chatterbox",
        (bestOf s0 (rest.filter fun s => decide (inSweetSpot s.duration))).path,
        (s0 :: rest).length⟩ ∧
    f5ttsEnrollArtifact (s0 :: rest) =
      .ok ⟨"f5tts",
        (bestOf s0 (rest.filter fun s => decide (inSweetSpot s.duration))).path,
        (s0 :: rest).length⟩ := by
  have hseed : selectStep (none, 0) s0 = (some s0, s0.duration) := by
    by_cases hin : inSweetSpot s0.duration <;> simp [selectStep, hin]
  have hsel : chatterboxSelect (s0 :: rest) =
      some (bestOf s0 (rest.filter fun s => decide (inSweetSpot s.duration))) := by
    unfold chatterboxSelect
    rw [List.foldl_cons, hseed, selectFold_eq]
  refine ⟨hsel, hsel, ?_, ?_⟩ <;>
    simp [chatterboxEnrollArtifact, f5ttsEnrollArtifact, chatterboxSelect,
      f5ttsSelect] at hsel ⊢ <;>
    simp [hsel]

/-- C2 counterexample: with samples of 20 s then 10 s, the 10 s sample is
the only one in the 5–15 s window, yet both backends keep the 20 s first
sample: the out-of-window first sample seeds `best_duration`, which a later
in-window sample must strictly exceed. -/
theorem enroll_reference_selection_counterexample :
    inSweetSpot (⟨"sweet.wav", 10⟩ : EnrollSample).duration ∧
    ¬ inSweetSpot (⟨"first.wav", 20⟩ : EnrollSample).duration ∧
    chatterboxSelect [⟨"first.wav", 20⟩, ⟨"sweet.wav", 10⟩] =
      some ⟨"first.wav", 20⟩ ∧
    f5ttsSelect [⟨"first.wav", 20⟩, ⟨"sweet.wav", 10⟩] =
      some ⟨"first.wav", 20⟩ := by
  refine ⟨by norm_num [inSweetSpot], by norm_num [inSweetSpot], ?_, ?_⟩ <;>
    simp [chatterboxSelect, f5ttsSelect, selectStep, inSweetSpot] <;> norm_num

/-- Every adaptive poll interval is at least 2 seconds, so elapsed time
strictly grows between polls. -/
theorem waitTime_ge_two (pc : ℕ) : 2 ≤ waitTime pc := by
  unfold waitTime
  split
  · omega
  · split <;> omega

/-- If no poll ever observes a terminal status, the loop ends in
`TimeoutError` once the slept time exceeds the timeout. -/
theorem pollLoop_no_terminal (statusAt : ℕ → String) (out : RunPodOutput)
    (timeout : ℕ) (h : ∀ n, statusAt n ≠ "COMPLETED" ∧ statusAt n ≠ "FAILED") :
    ∀ m pc el : ℕ, timeout + 1 - el ≤ m →
      pollLoop statusAt out timeout pc el = TrainResult.timeout := by
  intro m
  induction m with
  | zero =>
    intro pc el hle
    have ht : timeout < el := by omega
    rw [pollLoop.eq_def]
    simp [(h (pc + 1)).1, (h (pc + 1)).2, ht]
  | succ n ihn =>
    intro pc el hle
    by_cases ht : timeout < el
    · rw [pollLoop.eq_def]
      simp [(h (pc + 1)).1, (h (pc + 1)).2, ht]
    · have hrec := ihn (pc + 1) (el + waitTime (pc + 1))
        (by have := waitTime_ge_two (pc + 1); omega)
      rw [pollLoop.eq_def]
      simp [(h (pc + 1)).1, (h (pc + 1)).2, ht, hrec]

/-- C5 (amended): the sleep after poll `k` is 2 s for polls 1–9, 5 s for
polls 10–29 and 10 s from poll 30 on (the code guards with
`poll_count < 10` / `poll_count < 30` *after* incrementing, so the claimed
boundaries are off by one); and a run whose status never becomes COMPLETED
or FAILED terminates with the timeout error instead of looping forever. -/
theorem runpod_poll_schedule_and_timeout :
    (∀ pc : ℕ,
      (1 ≤ pc → pc ≤ 9 → waitTime pc = 2) ∧
      (10 ≤ pc → pc ≤ 29 → waitTime pc = 5) ∧
      (30 ≤ pc → waitTime pc = 10)) ∧
    (∀ (statusAt : ℕ → String) (out : RunPodOutput) (timeout : ℕ),
      (∀ n, statusAt n ≠ "COMPLETED" ∧ statusAt n ≠ "FAILED") →
      train_rvc_model_poll statusAt out timeout = TrainResult.timeout) := by
  constructor
  · intro pc
    refine ⟨fun h1 h9 => ?_, fun h10 h29 => ?_, fun h30 => ?_⟩
    · simp only [waitTime, if_pos (show pc < 10 by omega)]
    · simp only [waitTime, if_neg (show ¬ pc < 10 by omega),
        if_pos (show pc < 30 by omega)]
    · simp only [waitTime, if_neg (show ¬ pc < 10 by omega),
        if_neg (show ¬ pc < 30 by omega)]
  · intro statusAt out timeout h
    exact pollLoop_no_terminal statusAt out timeout h (timeout + 1) 0 0 (by omega)

/-- Witness for C5 at concrete inputs: one interval from each band of the
amended schedule, and a never-terminal status stream hitting the timeout. -/
theorem runpod_poll_schedule_and_timeout_witness :
    waitTime 5 = 2 ∧ waitTime 15 = 5 ∧ waitTime 42 = 10 ∧
    train_rvc_model_poll (fun _ => "IN_QUEUE") ⟨true, ""⟩ 5 =
      TrainResult.timeout :=
  ⟨(runpod_poll_schedule_and_timeout.1 5).1 (by decide) (by decide),
   (runpod_poll_schedule_and_timeout.1 15).2.1 (by decide) (by decide),
   (runpod_poll_schedule_and_timeout.1 42).2.2 (by decide),
   runpod_poll_schedule_and_timeout.2 (fun _ => "IN_QUEUE") ⟨true, ""⟩ 5
     (fun _ => ⟨(by decide : ("IN_QUEUE" : String) ≠ "COMPLETED"),
                (by decide : ("IN_QUEUE" : String) ≠ "FAILED")⟩)⟩

/-- C5 counterexample: the claim's schedule says the sleep after poll 10
is 2 s (a "first 10" poll) and after poll 30 is 5 s (a "polls 11–30"
poll); the code sleeps 5 s and 10 s there. -/
theorem runpod_poll_schedule_counterexample :
    waitTime 10 = 5 ∧ waitTime 10 ≠ 2 ∧ waitTime 30 = 10 ∧ waitTime 30 ≠ 5 := by
  decide

/-- A waveform not on the silence branch has strictly positive RMS. -/
theorem rms_pos_of_not_silent {a : List ℝ} (h : ¬ rms a < 1e-10) : 0 < rms a :=
  lt_of_lt_of_le (by norm_num) (not_lt.mp h)

/-- On the non-silent branch the gain simplifies to the target RMS over
the current RMS: `10^((t - 20·log10 r)/20) = 10^(t/20) / r`. -/
theorem audioGain_eq (a : List ℝ) (t : ℝ) (h : 0 < rms a) :
    audioGain a t = (10 : ℝ) ^ (t / 20) / rms a := by
  unfold audioGain
  rw [show (t - 20 * Real.logb 10 (rms a)) / 20 = t / 20 - Real.logb 10 (rms a) by ring]
  rw [Real.rpow_sub (by norm_num : (0 : ℝ) < 10)]
  rw [Real.rpow_logb (by norm_num) (by norm_num) h]

/-- The computed gain is positive on the non-silent branch. -/
theorem audioGain_pos (a : List ℝ) (t : ℝ) (h : 0 < rms a) :
    0 < audioGain a t := by
  rw [audioGain_eq a t h]
  exact div_pos (Real.rpow_pos_of_pos (by norm_num) _) h

/-- RMS scales absolutely homogeneously. -/
theorem rms_map_mul (a : List ℝ) (g : ℝ) :
    rms (a.map fun x => x * g) = |g| * rms a := by
  unfold rms
  rw [List.map_map]
  have hfun : ((fun x => x ^ 2) ∘ fun x => x * g) = fun x : ℝ => x ^ 2 * g ^ 2 := by
    funext x
    simp [mul_pow]
  rw [hfun, List.sum_map_mul_right, List.length_map]
  have hS : 0 ≤ (a.map fun x => x ^ 2).sum := by
    apply List.sum_nonneg
    intro x hx
    obtain ⟨y, -, rfl⟩ := List.mem_map.mp hx
    exact sq_nonneg y
  have harg : (a.map fun x => x ^ 2).sum * g ^ 2 / (a.length : ℝ) =
      (a.map fun x => x ^ 2).sum / (a.length : ℝ) * g ^ 2 := by ring
  rw [harg, Real.sqrt_mul (div_nonneg hS (Nat.cast_nonneg _)), Real.sqrt_sq_eq_abs,
    mul_comm]

/-- `np.clip` is the identity inside `[-1, 1]`. -/
theorem clip1_of_abs_le {x : ℝ} (h : |x| ≤ 1) : clip1 x = x := by
  obtain ⟨h1, h2⟩ := abs_le.mp h
  unfold clip1
  rw [min_eq_right h2, max_eq_right h1]

/-- Below the silence floor, `normalize_audio` is the identity. -/
theorem normalize_audio_silent (a : List ℝ) (t : ℝ) (h : rms a < 1e-10) :
    normalize_audio a t = a := by
  unfold normalize_audio
  rw [if_pos h]

/-- When no sample clips, `normalize_audio` is plain scaling by the gain. -/
theorem normalize_audio_noclip (a : List ℝ) (t : ℝ) (hs : ¬ rms a < 1e-10)
    (hnc : ∀ x ∈ a, |x * audioGain a t| ≤ 1) :
    normalize_audio a t = a.map fun x => x * audioGain a t := by
  unfold normalize_audio
  rw [if_neg hs]
  exact List.map_congr_left fun x hx => clip1_of_abs_le (hnc x hx)

/-- The clip-free output hits the target RMS `10^(t/20)` exactly. -/
theorem rms_normalize_audio (a : List ℝ) (t : ℝ) (hs : ¬ rms a < 1e-10)
    (hnc : ∀ x ∈ a, |x * audioGain a t| ≤ 1) :
    rms (normalize_audio a t) = (10 : ℝ) ^ (t / 20) := by
  have h0 : 0 < rms a := rms_pos_of_not_silent hs
  rw [normalize_audio_noclip a t hs hnc, rms_map_mul,
    abs_of_pos (audioGain_pos a t h0), audioGain_eq a t h0,
    div_mul_cancel₀ _ (ne_of_gt h0)]

/-- C4 (amended): for a non-silent waveform *whose scaled samples do not
reach the clip bound*, normalization is idempotent and the output RMS is
the target `10^(t/20)`; and a waveform below the 1e-10 silence floor is
returned unchanged.  (With clipping engaged neither part survives — see
the counterexample.) -/
theorem normalize_audio_idempotent (audio : List ℝ) (t : ℝ)
    (hs : ¬ rms audio < 1e-10)
    (hnc : ∀ x ∈ audio, |x * audioGain audio t| ≤ 1) :
    normalize_audio (normalize_audio audio t) t = normalize_audio audio t ∧
    rms (normalize_audio audio t) = (10 : ℝ) ^ (t / 20) ∧
    ∀ (a : List ℝ) (u : ℝ), rms a < 1e-10 → normalize_audio a u = a := by
  have h0 : 0 < rms audio := rms_pos_of_not_silent hs
  have hout : normalize_audio audio t = audio.map fun x => x * audioGain audio t :=
    normalize_audio_noclip audio t hs hnc
  have hrms2 : rms (normalize_audio audio t) = (10 : ℝ) ^ (t / 20) :=
    rms_normalize_audio audio t hs hnc
  refine ⟨?_, hrms2, fun a u h => normalize_audio_silent a u h⟩
  by_cases h2 : rms (normalize_audio audio t) < 1e-10
  · exact normalize_audio_silent _ t h2
  · have hpos2 : 0 < rms (normalize_audio audio t) := rms_pos_of_not_silent h2
    have hg2 : audioGain (normalize_audio audio t) t = 1 := by
      rw [audioGain_eq _ t hpos2, hrms2,
        div_self (ne_of_gt (Real.rpow_pos_of_pos (by norm_num) _))]
    have hnc2 : ∀ x ∈ normalize_audio audio t,
        |x * audioGain (normalize_audio audio t) t| ≤ 1 := by
      rw [hg2]
      intro x hx
      rw [mul_one]
      rw [hout] at hx
      obtain ⟨y, hy, rfl⟩ := List.mem_map.mp hx
      exact hnc y hy
    rw [normalize_audio_noclip _ t h2 hnc2, hg2]
    simp

/-- C9: for a waveform past the silence-floor check, every sample produced
by `normalize_audio` is hard-clipped into `[-1, 1]`, whatever the gain. -/
theorem normalize_audio_clipped (audio : List ℝ) (t : ℝ)
    (hs : ¬ rms audio < 1e-10) :
    ∀ x ∈ normalize_audio audio t, -1 ≤ x ∧ x ≤ 1 := by
  intro x hx
  unfold normalize_audio at hx
  rw [if_neg hs] at hx
  obtain ⟨y, -, rfl⟩ := List.mem_map.mp hx
  unfold clip1
  exact ⟨le_max_left _ _, max_le (by norm_num) (min_le_left _ _)⟩

/-- RMS of a two-sample waveform. -/
theorem rms_two (x y : ℝ) : rms [x, y] = Real.sqrt ((x ^ 2 + y ^ 2) / 2) := by
  unfold rms
  norm_num

/-- The waveform `[7, 1]` has RMS 5. -/
theorem rms_seven_one : rms [(7 : ℝ), 1] = 5 := by
  rw [rms_two, show ((7 : ℝ) ^ 2 + 1 ^ 2) / 2 = 5 ^ 2 by norm_num,
    Real.sqrt_sq (by norm_num)]

/-- Witness for C9: the clipped output of the loud waveform `[7, 1]`. -/
theorem normalize_audio_clipped_witness :
    ¬ rms [(7 : ℝ), 1] < 1e-10 ∧
    ∀ x ∈ normalize_audio [(7 : ℝ), 1] (-20), -1 ≤ x ∧ x ≤ 1 :=
  have h : ¬ rms [(7 : ℝ), 1] < 1e-10 := by rw [rms_seven_one]; norm_num
  ⟨h, normalize_audio_clipped [(7 : ℝ), 1] (-20) h⟩

/-- The waveform `[1/2, 1/2]` has RMS `1/2`. -/
theorem rms_half_half : rms [(1 / 2 : ℝ), 1 / 2] = 1 / 2 := by
  rw [rms_two, show ((1 / 2 : ℝ) ^ 2 + (1 / 2) ^ 2) / 2 = (1 / 2) ^ 2 by norm_num,
    Real.sqrt_sq (by norm_num)]

/-- Witness for C4 at `[1/2, 1/2]`, target 0 dB: the gain is 2, no sample
exceeds the clip bound, and normalization is idempotent with output RMS
`10^0 = 1`. -/
theorem normalize_audio_idempotent_witness :
    (¬ rms [(1 / 2 : ℝ), 1 / 2] < 1e-10) ∧
    (∀ x ∈ [(1 / 2 : ℝ), 1 / 2], |x * audioGain [(1 / 2 : ℝ), 1 / 2] 0| ≤ 1) ∧
    normalize_audio (normalize_audio [(1 / 2 : ℝ), 1 / 2] 0) 0 =
      normalize_audio [(1 / 2 : ℝ), 1 / 2] 0 ∧
    rms (normalize_audio [(1 / 2 : ℝ), 1 / 2] 0) = (10 : ℝ) ^ ((0 : ℝ) / 20) :=
  have h1 : ¬ rms [(1 / 2 : ℝ), 1 / 2] < 1e-10 := by rw [rms_half_half]; norm_num
  have hg : audioGain [(1 / 2 : ℝ), 1 / 2] 0 = 2 := by
    rw [audioGain_eq _ _ (by rw [rms_half_half]; norm_num), rms_half_half,
      show ((0 : ℝ) / 20) = 0 by norm_num, Real.rpow_zero]
    norm_num
  have h2 : ∀ x ∈ [(1 / 2 : ℝ), 1 / 2], |x * audioGain [(1 / 2 : ℝ), 1 / 2] 0| ≤ 1 := by
    intro x hx
    rw [hg]
    rcases List.mem_cons.mp hx with h | h
    · rw [h]; norm_num
    · simp only [List.mem_singleton] at h
      rw [h]; norm_num
  ⟨h1, h2, (normalize_audio_idempotent _ 0 h1 h2).1,
   (normalize_audio_idempotent _ 0 h1 h2).2.1⟩

/-- C4 counterexample: at `[7, 1]` and target 0 dB the first sample clips
(`7/5 > 1`), the first pass returns `[1, 1/5]`, and the second pass
re-amplifies the survivor to `1/√13 ≠ 1/5`: normalization is not
idempotent once the hard clip engages. -/
theorem normalize_audio_not_idempotent :
    normalize_audio (normalize_audio [(7 : ℝ), 1] 0) 0 ≠
      normalize_audio [(7 : ℝ), 1] 0 := by
  have hns : ¬ rms [(7 : ℝ), 1] < 1e-10 := by rw [rms_seven_one]; norm_num
  have hg : audioGain [(7 : ℝ), 1] 0 = 1 / 5 := by
    rw [audioGain_eq _ _ (by rw [rms_seven_one]; norm_num), rms_seven_one,
      show ((0 : ℝ) / 20) = 0 by norm_num, Real.rpow_zero]
  have hout1 : normalize_audio [(7 : ℝ), 1] 0 = [1, 1 / 5] := by
    unfold normalize_audio
    rw [if_neg hns, hg]
    simp only [List.map_cons, List.map_nil]
    congr 1
    · unfold clip1
      rw [min_eq_left (by norm_num : (1 : ℝ) ≤ 7 * (1 / 5)),
        max_eq_right (by norm_num : (-1 : ℝ) ≤ 1)]
    · congr 1
      rw [clip1_of_abs_le (by rw [abs_of_nonneg] <;> norm_num)]
      norm_num
  rw [hout1]
  have hrms2 : rms [(1 : ℝ), 1 / 5] = Real.sqrt (13 / 25) := by
    rw [rms_two]
    norm_num
  have hspos : (0 : ℝ) < Real.sqrt (13 / 25) := Real.sqrt_pos.mpr (by norm_num)
  have hns2 : ¬ rms [(1 : ℝ), 1 / 5] < 1e-10 := by
    rw [hrms2]
    have hle : (1e-10 : ℝ) ≤ Real.sqrt (13 / 25) := by
      rw [show (1e-10 : ℝ) = Real.sqrt ((1e-10) ^ 2) by
        rw [Real.sqrt_sq (by norm_num)]]
      exact Real.sqrt_le_sqrt (by norm_num)
    exact not_lt.mpr hle
  have hg2 : audioGain [(1 : ℝ), 1 / 5] 0 = (Real.sqrt (13 / 25))⁻¹ := by
    rw [audioGain_eq _ _ (by rw [hrms2]; exact hspos), hrms2,
      show ((0 : ℝ) / 20) = 0 by norm_num, Real.rpow_zero, one_div]
  have hs_lt_one : Real.sqrt (13 / 25) < 1 := by
    rw [show (1 : ℝ) = Real.sqrt 1 by rw [Real.sqrt_one]]
    exact Real.sqrt_lt_sqrt (by norm_num) (by norm_num)
  have hs_ge : (1 / 5 : ℝ) ≤ Real.sqrt (13 / 25) := by
    rw [show (1 / 5 : ℝ) = Real.sqrt ((1 / 5) ^ 2) by rw [Real.sqrt_sq (by norm_num)]]
    exact Real.sqrt_le_sqrt (by norm_num)
  have hinv_gt : 1 < (Real.sqrt (13 / 25))⁻¹ := (one_lt_inv₀ hspos).mpr hs_lt_one
  have hout2 : normalize_audio [(1 : ℝ), 1 / 5] 0 =
      [1, 1 / 5 * (Real.sqrt (13 / 25))⁻¹] := by
    unfold normalize_audio
    rw [if_neg hns2, hg2]
    simp only [List.map_cons, List.map_nil, one_mul]
    congr 1
    · unfold clip1
      rw [min_eq_left (le_of_lt hinv_gt), max_eq_right (by norm_num : (-1 : ℝ) ≤ 1)]
    · congr 1
      apply clip1_of_abs_le
      rw [abs_of_nonneg (by positivity)]
      calc (1 / 5 : ℝ) * (Real.sqrt (13 / 25))⁻¹
          ≤ 1 / 5 * (1 / 5 : ℝ)⁻¹ := by
            apply mul_le_mul_of_nonneg_left _ (by norm_num)
            exact inv_anti₀ (by norm_num) hs_ge
        _ = 1 := by norm_num
  rw [hout2]
  intro heq
  have h2 : (1 / 5 : ℝ) * (Real.sqrt (13 / 25))⁻¹ = 1 / 5 := by
    have := List.tail_eq_of_cons_eq heq
    exact (List.head_eq_of_cons_eq this)
  have hinv : (Real.sqrt (13 / 25))⁻¹ = 1 :=
    mul_left_cancel₀ (by norm_num : (1 / 5 : ℝ) ≠ 0) (by rw [h2, mul_one])
  have hsre : Real.sqrt (13 / 25) = 1 := by rwa [inv_eq_one] at hinv
  rw [Real.sqrt_eq_one] at hsre
  norm_num at hsre

/-- C10: both `mark_job_failed` services write exactly the status, the
error message and the completion time; `progress_percent` (and
`current_step` on cover jobs) keep the values they had when the failure
occurred. -/
theorem mark_job_failed_frame (tj : TTSJob) (cj : CoverJob) (e : String) (now : ℕ) :
    (tj.mark_job_failed e now).status = JobStatus.failed ∧
    (tj.mark_job_failed e now).error_message = e ∧
    (tj.mark_job_failed e now).completed_at = some now ∧
    (tj.mark_job_failed e now).progress_percent = tj.progress_percent ∧
    (tj.mark_job_failed e now).input_text = tj.input_text ∧
    (tj.mark_job_failed e now).celery_task_id = tj.celery_task_id ∧
    (cj.mark_job_failed e now).status = JobStatus.failed ∧
    (cj.mark_job_failed e now).error_message = e ∧
    (cj.mark_job_failed e now).completed_at = some now ∧
    (cj.mark_job_failed e now).progress_percent = cj.progress_percent ∧
    (cj.mark_job_failed e now).current_step = cj.current_step ∧
    (cj.mark_job_failed e now).pitch_shift = cj.pitch_shift ∧
    (cj.mark_job_failed e now).source_song_path = cj.source_song_path ∧
    (cj.mark_job_failed e now).original_filename = cj.original_filename ∧
    (cj.mark_job_failed e now).vocal_volume = cj.vocal_volume ∧
    (cj.mark_job_failed e now).instrumental_volume = cj.instrumental_volume ∧
    (cj.mark_job_failed e now).celery_task_id = cj.celery_task_id :=
  ⟨rfl, rfl, rfl, rfl, rfl, rfl, rfl, rfl, rfl, rfl, rfl, rfl, rfl, rfl, rfl, rfl, rfl⟩

end Parrotcore
